import Mathlib

/-!
Verification of the `hacky` repository (LinkedIn crawl + embedding pipeline).

The definitions below are a shallow embedding of the Python sources:

* `process_profiles_batch`, `vector_id`, `combined_text`, `upsert_batch`
  embed `src/process_embeddings.py`;
* `extract_profile_urls`, `get_next_page_url`-adjacent logic and the main
  crawl loop embed `src/linkedin_other.py`;
* `scrape_visible_connections` and the scroll loop embed
  `src/linkedin_own.py`;
* `save_urls_ops` / `save_connections_ops` embed the file-writing behaviour
  of the two checkpoint helpers (`open(filename, 'w')` followed by
  `json.dump`).

External effects (the OpenAI embedding call, the Pinecone upsert, file
writability) are modelled as oracle parameters: `embedOk i` tells whether the
embedding call for the `i`-th record succeeds, `upsertOk k` whether the `k`-th
upsert call succeeds, `saveOk k` whether the `k`-th checkpoint save succeeds.
A Python exception that escapes a function is modelled with `Option`/explicit
abort results.
-/

namespace Hacky

/-! ## Model of `src/process_embeddings.py` -/

/-- A profile record as loaded from the JSON file: the fields read by
`process_profiles_batch` (`url`, `name`, `important`, `all_details`). -/
structure Profile where
  url : String
  name : String
  important : List String
  all_details : String
deriving DecidableEq, Repr

/-- Python `lst[-2]`: the second-to-last element; `none` models the
`IndexError` raised when the list has fewer than two elements. -/
def pyNegIdx2 {α : Type} (l : List α) : Option α :=
  if h : 2 ≤ l.length then some (l.get ⟨l.length - 2, by omega⟩) else none

/-- Python `s.split(sep)` for a one-character separator, by structural
recursion over the character list (`"" ↦ [""]`, `"a/" ↦ ["a", ""]`). -/
def py_split_chars (sep : Char) : List Char → List (List Char)
  | [] => [[]]
  | c :: cs =>
    let r := py_split_chars sep cs
    if c = sep then [] :: r
    else
      match r with
      | [] => [[c]]
      | cur :: rest => (c :: cur) :: rest

/-- Python `s.split(sep)` on strings. -/
def py_split (sep : Char) (s : String) : List String :=
  (py_split_chars sep s.data).map (fun cs => ⟨cs⟩)

/-- The id given to the vector uploaded to Pinecone:
`profile['url'].split('/')[-2]` (the source comment reads
`Use LinkedIn handle as ID`). -/
def vector_id (url : String) : Option String :=
  pyNegIdx2 (py_split '/' url)

/-- `combined_text = f"{' '.join(profile.get('important', []))} {profile.get('all_details', '')}".strip()`. -/
def combined_text (p : Profile) : String :=
  (String.intercalate " " p.important ++ " " ++ p.all_details).trim

/-- The mutable state of `process_profiles_batch`: the running
`successful_uploads` counter, the current `vectors_batch` (we record each
vector by its id), and the history of upsert calls made so far (batch
contents paired with whether the call succeeded). -/
structure EmbedState where
  successful_uploads : Int
  vectors_batch : List String
  upserts : List (List String × Bool)
deriving DecidableEq, Repr

/-- One `index.upsert(vectors=vectors_batch)` call inside a `try`: on failure
`successful_uploads -= len(vectors_batch)`; in both cases the batch is
cleared and the attempt is recorded. -/
def upsert_batch (upsertOk : Nat → Bool) (s : EmbedState) : EmbedState :=
  let ok := upsertOk s.upserts.length
  { successful_uploads :=
      if ok then s.successful_uploads
      else s.successful_uploads - s.vectors_batch.length
    vectors_batch := []
    upserts := s.upserts ++ [(s.vectors_batch, ok)] }

/-- One iteration of the `for i, profile in enumerate(profiles, 1)` loop:
if the embedding call succeeds the vector (with id `url.split('/')[-2]`) is
appended to the batch and the counter incremented; when the batch reaches
`batch_size` it is upserted.  `none` models the uncaught `IndexError` from
the id computation. -/
def process_step (embedOk upsertOk : Nat → Bool) (batch_size : Nat)
    (s : EmbedState) (ip : Nat × Profile) : Option EmbedState :=
  if embedOk ip.1 then
    match vector_id ip.2.url with
    | none => none
    | some v =>
      let s1 : EmbedState :=
        { s with vectors_batch := s.vectors_batch ++ [v]
                 successful_uploads := s.successful_uploads + 1 }
      if batch_size ≤ s1.vectors_batch.length then some (upsert_batch upsertOk s1)
      else some s1
  else some s

/-- `process_profiles_batch(profiles, index, batch_size)`: fold the loop body
over the enumerated profiles, then upload any remaining vectors. Returns the
final state (the Python function returns `successful_uploads`). -/
def process_profiles_batch (profiles : List Profile) (embedOk upsertOk : Nat → Bool)
    (batch_size : Nat) : Option EmbedState := do
  let s ← profiles.enum.foldlM (process_step embedOk upsertOk batch_size)
    ⟨0, [], []⟩
  if s.vectors_batch.isEmpty then pure s else pure (upsert_batch upsertOk s)

/-- The ids of the records whose embedding call succeeds, in input order. -/
def embedded_ids (embedOk : Nat → Bool) (profiles : List Profile) : List String :=
  profiles.enum.filterMap
    (fun ip => if embedOk ip.1 then vector_id ip.2.url else none)

/-- Total number of vectors contained in the upsert calls that succeeded. -/
def success_count (ups : List (List String × Bool)) : Nat :=
  ((ups.filter (fun u => u.2)).map (fun u => u.1.length)).sum

/-- Total number of vectors contained in the upsert calls that failed. -/
def failed_count (ups : List (List String × Bool)) : Nat :=
  ((ups.filter (fun u => !u.2)).map (fun u => u.1.length)).sum

/-! ## Model of `src/linkedin_own.py` (infinite-scroll crawl) -/

/-- What one iteration of the scroll loop observes: the connection cards
currently visible (`none` for a card whose name or occupation element is
missing, which the source skips), the scroll height measured after scrolling
to the bottom, and whether the `Show more results` button is visible. -/
structure ScrollObs where
  cards : List (Option (String × String))
  height : Int
  showMore : Bool
deriving DecidableEq, Repr

/-- `scrape_visible_connections(page, existing_connections)`: walk the visible
cards; a card whose name is not yet in the dedup set is appended to the new
connections and its name added to the set. Returns the new connections and
the updated set (the Python set is modelled as a list of names). -/
def scrape_visible_connections (cards : List (Option (String × String)))
    (existing : List String) : List (String × String) × List String :=
  cards.foldl
    (fun acc c =>
      match c with
      | none => acc
      | some card =>
        if acc.2.contains card.1 then acc
        else (acc.1 ++ [card], acc.2 ++ [card.1]))
    ([], existing)

/-- The loop state of `scroll_and_scrape`: `last_height`,
`same_height_count`, the accumulated `all_connections` and the
`existing_names` dedup set. -/
structure ScrollState where
  last_height : Int
  same_height_count : Nat
  all_connections : List (String × String)
  existing_names : List String
deriving DecidableEq, Repr

/-- Observable side effects of the scroll loop: a `save_connections` call
(with the full list it writes) or a click on the `Show more results`
button. -/
inductive OwnEvent
  | saveConnections (conns : List (String × String))
  | clickShowMore
deriving DecidableEq, Repr

/-- The `while True` loop of `scroll_and_scrape`, driven by the finite list
of observations we examine. Each iteration: scrape, save if something new
was found, scroll and read the height; if the height equals the previous one
the counter is incremented and either the load-more button is clicked
(resetting the counter) or, once the counter reaches 3, the loop breaks.
Returns the emitted events, the final state, and `some i` when the loop
broke at the `i`-th iteration (1-based); `none` when the observations ran
out with the loop still running. -/
def scroll_and_scrape_go : List ScrollObs → ScrollState → Nat →
    List OwnEvent × ScrollState × Option Nat
  | [], st, _ => ([], st, none)
  | o :: rest, st, iter =>
    let scr := scrape_visible_connections o.cards st.existing_names
    let all' := if scr.1.isEmpty then st.all_connections
                else st.all_connections ++ scr.1
    let evs1 : List OwnEvent :=
      if scr.1.isEmpty then [] else [OwnEvent.saveConnections all']
    if o.height = st.last_height then
      let cnt := st.same_height_count + 1
      if o.showMore then
        let next := scroll_and_scrape_go rest ⟨o.height, 0, all', scr.2⟩ (iter + 1)
        (evs1 ++ [OwnEvent.clickShowMore] ++ next.1, next.2)
      else if 3 ≤ cnt then
        (evs1, ⟨st.last_height, cnt, all', scr.2⟩, some iter)
      else
        let next := scroll_and_scrape_go rest ⟨o.height, cnt, all', scr.2⟩ (iter + 1)
        (evs1 ++ next.1, next.2)
    else
      let next := scroll_and_scrape_go rest ⟨o.height, 0, all', scr.2⟩ (iter + 1)
      (evs1 ++ next.1, next.2)

/-- `scroll_and_scrape(page)`: run the loop from the initial state
(`last_height = 0`, `same_height_count = 0`, nothing collected) and then, in
the `finally` block, save whatever was collected if anything was. -/
def scroll_and_scrape (obs : List ScrollObs) :
    List OwnEvent × ScrollState × Option Nat :=
  let r := scroll_and_scrape_go obs ⟨0, 0, [], []⟩ 1
  (r.1 ++ (if r.2.1.all_connections.isEmpty then []
           else [OwnEvent.saveConnections r.2.1.all_connections]),
   r.2)

/-- Observations consisting only of height readings: no visible cards and no
load-more button. -/
def heightsObs (hs : List Int) : List ScrollObs :=
  hs.map (fun h => ⟨[], h, false⟩)

/-! ## Model of `src/linkedin_other.py` (paginated crawl) -/

/-- One container of the extraction loop: a container that fails link
extraction is skipped, otherwise the href is cleaned immediately with
`split('?')[0]` and added to the URL set (modelled as a duplicate-free list
in first-occurrence order). -/
def extract_step (acc : List String) (c : Option String) : List String :=
  match c with
  | none => acc
  | some href =>
    let url := (py_split '?' href).headD ""
    if acc.contains url then acc else acc ++ [url]

/-- `extract_profile_urls(driver, page_number)`: each result container either
yields a profile href (`some href`) or fails extraction and is skipped
(`none`); the cleaned URLs are collected into a set. -/
def extract_profile_urls (containers : List (Option String)) : List String :=
  containers.foldl extract_step []

/-- Observable effects of the main crawl loop: extracting a page, a
`save_urls` attempt (with the snapshot it writes and whether the write
succeeded), and the `page_number += 1` advance. -/
inductive CrawlEvent
  | extract (page : Nat) (urls : List String)
  | save (snapshot : List (Nat × List String)) (ok : Bool)
  | advance (fromPage : Nat)
deriving DecidableEq, Repr

/-- How a run of the main loop ended: a page yielded no URLs (the normal
`reached the last page` break), a failed save raised out of the loop, or the
observed pages ran out with the loop still going. -/
inductive CrawlExit
  | exhausted
  | aborted
  | outOfInput
deriving DecidableEq, Repr

/-- The `while True` loop of `main` in `src/linkedin_other.py`. Arguments:
the pages still to be observed (each a list of containers), the current
`page_number`, the accumulated `urls_by_page` (an ordered page-number to
URL-list map), and the index of the next `save_urls` attempt (`saveOk`
says which attempts succeed). Each productive page is appended to the
state and saved; a failed save raises, which leaves the loop. Returns the
events, the final `urls_by_page`, the next save index and how the loop
ended. -/
def crawl_go (saveOk : Nat → Bool) :
    List (List (Option String)) → Nat → List (Nat × List String) → Nat →
    List CrawlEvent × List (Nat × List String) × Nat × CrawlExit
  | [], _, st, sIdx => ([], st, sIdx, CrawlExit.outOfInput)
  | cont :: rest, n, st, sIdx =>
    let urls := extract_profile_urls cont
    if urls.isEmpty then
      ([CrawlEvent.extract n urls], st, sIdx, CrawlExit.exhausted)
    else
      let st' := st ++ [(n, urls)]
      if saveOk sIdx then
        let next := crawl_go saveOk rest (n + 1) st' (sIdx + 1)
        (CrawlEvent.extract n urls :: CrawlEvent.save st' true ::
           CrawlEvent.advance n :: next.1, next.2)
      else
        ([CrawlEvent.extract n urls, CrawlEvent.save st' false],
         st', sIdx + 1, CrawlExit.aborted)

/-- The outcome of a crawl run: its event trace, the final `urls_by_page`
and how it ended. -/
structure CrawlResult where
  events : List CrawlEvent
  urls_by_page : List (Nat × List String)
  exitKind : CrawlExit
deriving DecidableEq, Repr

/-- `main` of `src/linkedin_other.py`: run the loop from page 1 with an empty
state; on leaving the loop (normally or through an exception) the `finally`
block attempts one more `save_urls` if anything was collected. When the
observed pages merely ran out the loop is still running, so no `finally`
is modelled. -/
def linkedin_other_main (saveOk : Nat → Bool)
    (pages : List (List (Option String))) : CrawlResult :=
  let r := crawl_go saveOk pages 1 [] 0
  match r.2.2.2 with
  | CrawlExit.outOfInput => ⟨r.1, r.2.1, CrawlExit.outOfInput⟩
  | e =>
    ⟨r.1 ++ (if r.2.1.isEmpty then []
             else [CrawlEvent.save r.2.1 (saveOk r.2.2.1)]),
     r.2.1, e⟩

/-- `total_profiles` as computed by `save_urls`: the summed lengths of all
page lists. -/
def total_profiles (st : List (Nat × List String)) : Nat :=
  (st.map (fun e => e.2.length)).sum

/-- The key-uniqueness invariant claimed by the spec: a canonical key appears
in at most one page of the crawl state. -/
def KeyUnique (st : List (Nat × List String)) : Prop :=
  ∀ p1 ∈ st, ∀ p2 ∈ st, ∀ k : String, k ∈ p1.2 → k ∈ p2.2 → p1.1 = p2.1

instance (st : List (Nat × List String)) : Decidable (KeyUnique st) := by
  unfold KeyUnique; infer_instance

/-- The full crawl state the spec expects to be checkpointed when the crawl
has advanced past page `m`: every observed page up to `m` paired with its
extraction result. -/
def expected_state (pages : List (List (Option String))) (m : Nat) :
    List (Nat × List String) :=
  ((pages.take m).enum).map (fun ic => (ic.1 + 1, extract_profile_urls ic.2))

/-! ## Model of the checkpoint writes (`save_urls` / `save_connections`) -/

/-- A primitive effect on the checkpoint file: opening with mode `w`
truncates it; `json.dump` then writes the serialized state. -/
inductive FileOp
  | truncate
  | write (s : String)
deriving DecidableEq, Repr

/-- The file contents after a list of operations, starting from `content`. -/
def apply_ops (content : String) : List FileOp → String
  | [] => content
  | FileOp.truncate :: ops => apply_ops "" ops
  | FileOp.write s :: ops => apply_ops (content ++ s) ops

/-- The file operations performed by `save_urls` for a serialized payload:
`open(filename, mode w)` followed by `json.dump(data, f)`. -/
def save_urls_ops (serialized : String) : List FileOp :=
  [FileOp.truncate, FileOp.write serialized]

/-- The file operations performed by `save_connections`: the same
truncate-then-write pattern. -/
def save_connections_ops (serialized : String) : List FileOp :=
  [FileOp.truncate, FileOp.write serialized]

/-- The atomicity property the spec demands of a save routine: interrupting
the process after any number of its file operations leaves either the old
contents or the complete new contents on disk, never anything else. -/
def AtomicSave (ops : String → List FileOp) : Prop :=
  ∀ old new : String, ∀ k : Nat,
    apply_ops old ((ops new).take k) = old ∨
    apply_ops old ((ops new).take k) = new

/-! ## Concrete inputs used by witnesses and counterexamples -/

/-- A profile whose URL ends with a trailing slash (the shape for which the
id computation returns the handle). -/
def profileA : Profile :=
  ⟨"https://www.linkedin.com/in/alice/", "Alice", ["a"], "d"⟩

/-- A profile with a short URL, used for larger batch computations. -/
def profileB : Profile := ⟨"x/y/", "Y", [], ""⟩

/-- A page whose single container links to profile `a` (with a query string,
as LinkedIn result links carry). -/
def pageA : List (Option String) :=
  [some "https://www.linkedin.com/in/a?x=1"]

/-- A page presenting ten distinct profile links. -/
def tenLinks : List (Option String) :=
  [some "https://www.linkedin.com/in/u1?p=1",
   some "https://www.linkedin.com/in/u2?p=1",
   some "https://www.linkedin.com/in/u3?p=1",
   some "https://www.linkedin.com/in/u4?p=1",
   some "https://www.linkedin.com/in/u5?p=1",
   some "https://www.linkedin.com/in/u6?p=1",
   some "https://www.linkedin.com/in/u7?p=1",
   some "https://www.linkedin.com/in/u8?p=1",
   some "https://www.linkedin.com/in/u9?p=1",
   some "https://www.linkedin.com/in/u10?p=1"]

/-! ## Theorems -/

/-- C2 (counterexample): on the height sequence `[100, 150, 150, 150]` with
no load-more control the controller does NOT reach the terminated state —
after all four readings the unchanged-height counter is only at 2, because
the counter counts readings equal to their predecessor and the first `150`
differs from the preceding `100`. -/
theorem scroll_not_terminated_on_spec_heights :
    (scroll_and_scrape (heightsObs [100, 150, 150, 150])).2.2 = none ∧
    (scroll_and_scrape (heightsObs [100, 150, 150, 150])).2.1.same_height_count = 2 := by
  decide

/-- C2 (amended): the scroll controller terminates at the reading that
brings the consecutive-unchanged counter to 3 when no load-more control is
present: on `[100, 150, 150, 150, 150]` it breaks exactly at the 5th
reading, the 3rd consecutive one equal to its predecessor, and not
before. -/
theorem scroll_terminates_on_third_unchanged_reading :
    (scroll_and_scrape (heightsObs [100, 150, 150, 150, 150])).2.2 = some 5 ∧
    (scroll_and_scrape (heightsObs [100, 150, 150, 150, 150])).2.1.same_height_count = 3 ∧
    (scroll_and_scrape (heightsObs [100, 150, 150, 150])).2.2 ≠ some 4 := by
  decide

/-- C3 (counterexample): neither `save_urls` nor `save_connections` is
atomic with respect to partial writes: interrupting right after the
truncating `open` (one file operation into the save) leaves contents — the
empty string — that are neither the old checkpoint nor the new one. -/
theorem save_not_atomic :
    ¬ AtomicSave save_urls_ops ∧ ¬ AtomicSave save_connections_ops :=
  ⟨fun h => by have h1 := h "o" "n" 1; revert h1; decide,
   fun h => by have h1 := h "o" "n" 1; revert h1; decide⟩

/-- C3 (amended): both save helpers overwrite the checkpoint file in place:
a completed save leaves exactly the new serialized state, but an
interruption between the truncating open and the write leaves an empty
file. -/
theorem save_overwrite_behavior (old new : String) :
    apply_ops old (save_urls_ops new) = new ∧
    apply_ops old ((save_urls_ops new).take 1) = "" ∧
    apply_ops old (save_connections_ops new) = new ∧
    apply_ops old ((save_connections_ops new).take 1) = "" := by
  refine ⟨?_, rfl, ?_, rfl⟩ <;> simp [save_urls_ops, save_connections_ops, apply_ops]

/-- C1 (counterexample): a completed crawl in which page 2 re-presents the
profile link already seen on page 1 stores the same canonical key
`https://www.linkedin.com/in/a` in BOTH pages of the final state — there is
no cross-page deduplication in `linkedin_other.py`, so the key-uniqueness
invariant fails. -/
theorem crawl_repeated_key_in_two_pages :
    (linkedin_other_main (fun _ => true) [pageA, pageA, []]).exitKind
        = CrawlExit.exhausted ∧
    ¬ KeyUnique (linkedin_other_main (fun _ => true) [pageA, pageA, []]).urls_by_page := by
  decide

/-- C4 (counterexample): after page 1 yields ten distinct links, a page 2
re-presenting the same ten links does NOT end the crawl — the loop only
breaks on an extraction that yields no URLs at all, so the run is still
going after page 2 and the state holds 20 entries (10 of them duplicates),
not a terminated crawl with 10 unique records. -/
theorem crawl_continues_on_repeated_page :
    (linkedin_other_main (fun _ => true) [tenLinks, tenLinks]).exitKind
        ≠ CrawlExit.exhausted ∧
    (linkedin_other_main (fun _ => true) [tenLinks, tenLinks]).exitKind
        = CrawlExit.outOfInput ∧
    total_profiles (linkedin_other_main (fun _ => true)
        [tenLinks, tenLinks]).urls_by_page = 20 := by
  decide

/-- C4 (amended): the crawl terminates exactly when a page's extraction
yields zero URLs (not zero new URLs): with the same ten links on pages 1
and 2 and an empty page 3, the run ends normally at page 3, both earlier
pages are recorded — the repeated links again under page 2 — and the total
count is 20. -/
theorem crawl_terminates_only_on_empty_extraction :
    (linkedin_other_main (fun _ => true) [tenLinks, tenLinks, []]).exitKind
        = CrawlExit.exhausted ∧
    (linkedin_other_main (fun _ => true)
        [tenLinks, tenLinks, []]).urls_by_page.map Prod.fst = [1, 2] ∧
    total_profiles (linkedin_other_main (fun _ => true)
        [tenLinks, tenLinks, []]).urls_by_page = 20 := by
  decide

/-- C8 (code bug): the vector id is `url.split('/')[-2]`, the second-to-last
slash segment. For the URL shape the sibling crawler actually produces —
`https://www.linkedin.com/in/alice`, no trailing slash — the id is the
literal segment `in`, not the profile handle `alice` (the last path
segment), contradicting the source comment `Use LinkedIn handle as ID`;
only a URL with a trailing slash yields the handle. -/
theorem vector_id_not_profile_handle :
    vector_id "https://www.linkedin.com/in/alice" = some "in" ∧
    (py_split '/' "https://www.linkedin.com/in/alice").getLast? = some "alice" ∧
    vector_id "https://www.linkedin.com/in/alice/" = some "alice" := by
  decide

/-- C5 (counterexample): with the checkpoint store unwritable (every save
fails), the crawl does not continue in memory: the very first failed
`save_urls` raises out of the `while` loop, so page 2 (which would have
yielded `b`) is never visited — the final state holds only page 1 and the
run ends aborted, with no retry at a later page boundary (only the one
`finally` save attempt). -/
theorem save_failure_not_recovered :
    (linkedin_other_main (fun _ => false)
        [[some "a?1"], [some "b"], []]).exitKind = CrawlExit.aborted ∧
    (linkedin_other_main (fun _ => false)
        [[some "a?1"], [some "b"], []]).urls_by_page = [(1, ["a"])] ∧
    (linkedin_other_main (fun _ => false) [[some "a?1"], [some "b"], []]).events
      = [CrawlEvent.extract 1 ["a"], CrawlEvent.save [(1, ["a"])] false,
         CrawlEvent.save [(1, ["a"])] false] := by
  decide

/-- C5 (amended): a failed checkpoint save is fatal for the crawl loop: if
the first save fails on a productive first page, the whole run ends aborted
with exactly that one page collected, and the only further persistence
activity is the single save attempt of the `finally` block — no retry at a
next page boundary ever happens. -/
theorem save_failure_aborts_crawl (saveOk : Nat → Bool) (cont : List (Option String))
    (rest : List (List (Option String)))
    (h0 : saveOk 0 = false) (h1 : (extract_profile_urls cont).isEmpty = false) :
    linkedin_other_main saveOk (cont :: rest) =
      ⟨[CrawlEvent.extract 1 (extract_profile_urls cont),
        CrawlEvent.save [(1, extract_profile_urls cont)] false,
        CrawlEvent.save [(1, extract_profile_urls cont)] (saveOk 1)],
       [(1, extract_profile_urls cont)], CrawlExit.aborted⟩ := by
  simp [linkedin_other_main, crawl_go, h0, h1]

/-- C5 (witness): the amended statement at the concrete unwritable-store
run. -/
theorem save_failure_aborts_crawl_witness :
    ((fun _ => false : Nat → Bool) 0 = false) ∧
    (extract_profile_urls [some "a?1"]).isEmpty = false ∧
    linkedin_other_main (fun _ => false) [[some "a?1"], [some "b"], []] =
      ⟨[CrawlEvent.extract 1 ["a"], CrawlEvent.save [(1, ["a"])] false,
        CrawlEvent.save [(1, ["a"])] false], [(1, ["a"])], CrawlExit.aborted⟩ := by
  refine ⟨rfl, by decide, ?_⟩
  have hx : extract_profile_urls [some "a?1"] = ["a"] := by decide
  have h := save_failure_aborts_crawl (fun _ => false) [some "a?1"]
    [[some "b"], []] rfl (by decide)
  rw [hx] at h
  exact h

theorem extract_step_nodup {acc : List String} {c : Option String}
    (h : acc.Nodup) : (extract_step acc c).Nodup := by
  cases c with
  | none => exact h
  | some href =>
    unfold extract_step
    by_cases hc : ((py_split '?' href).head?.getD "") ∈ acc
    · simpa [hc] using h
    · simpa [hc, List.nodup_append] using h

theorem extract_foldl_nodup :
    ∀ (containers : List (Option String)) (acc : List String),
      acc.Nodup → (containers.foldl extract_step acc).Nodup
  | [], _, h => h
  | c :: cs, acc, h => extract_foldl_nodup cs (extract_step acc c) (extract_step_nodup h)

theorem extract_profile_urls_nodup (containers : List (Option String)) :
    (extract_profile_urls containers).Nodup :=
  extract_foldl_nodup containers [] List.nodup_nil

theorem crawl_go_entries_nodup (saveOk : Nat → Bool) :
    ∀ (pages : List (List (Option String))) (n : Nat)
      (st : List (Nat × List String)) (sIdx : Nat),
      (∀ e ∈ st, e.2.Nodup) →
      ∀ e ∈ (crawl_go saveOk pages n st sIdx).2.1, e.2.Nodup := by
  intro pages
  induction pages with
  | nil => intro n st sIdx hst e he; exact hst e he
  | cons cont rest ih =>
    intro n st sIdx hst e he
    by_cases hemp : (extract_profile_urls cont).isEmpty
    · simp only [crawl_go, hemp, if_true] at he
      exact hst e he
    · have hst' : ∀ e ∈ st ++ [(n, extract_profile_urls cont)], e.2.Nodup := by
        intro e' he'
        rcases List.mem_append.mp he' with h | h
        · exact hst e' h
        · rcases List.mem_singleton.mp h with rfl
          exact extract_profile_urls_nodup cont
      by_cases hs : saveOk sIdx
      · simp only [crawl_go, hemp, hs, if_false, if_true, Bool.false_eq_true] at he
        exact ih (n + 1) (st ++ [(n, extract_profile_urls cont)]) (sIdx + 1) hst' e he
      · simp only [crawl_go, hemp, hs, if_false, Bool.false_eq_true] at he
        exact hst' e he

theorem main_urls_eq_go (saveOk : Nat → Bool) (pages : List (List (Option String))) :
    (linkedin_other_main saveOk pages).urls_by_page
      = (crawl_go saveOk pages 1 [] 0).2.1 := by
  unfold linkedin_other_main
  generalize crawl_go saveOk pages 1 [] 0 = r
  obtain ⟨evs, st, sIdx, ex⟩ := r
  cases ex <;> rfl

/-- C1 (amended): what actually holds in `linkedin_other.py`: each single
page's Record list is duplicate-free (extraction collects URLs into a
per-page set), but the same canonical key may appear in several pages —
there is no crawl-wide visited-key set. -/
theorem crawl_page_lists_nodup (saveOk : Nat → Bool)
    (pages : List (List (Option String))) :
    ∀ e ∈ (linkedin_other_main saveOk pages).urls_by_page, e.2.Nodup := by
  intro e he
  rw [main_urls_eq_go] at he
  exact crawl_go_entries_nodup saveOk pages 1 [] 0 (by simp) e he

/-- C1 (witness): the per-page duplicate-freedom at a concrete completed
crawl. -/
theorem crawl_page_lists_nodup_witness :
    ((1, ["https://www.linkedin.com/in/a"])
        ∈ (linkedin_other_main (fun _ => true) [pageA, pageA, []]).urls_by_page) ∧
    (["https://www.linkedin.com/in/a"] : List String).Nodup :=
  ⟨by decide,
   crawl_page_lists_nodup (fun _ => true) [pageA, pageA, []]
     (1, ["https://www.linkedin.com/in/a"]) (by decide)⟩

theorem success_count_append (ups : List (List String × Bool)) (b : List String)
    (ok : Bool) :
    success_count (ups ++ [(b, ok)])
      = success_count ups + if ok then b.length else 0 := by
  cases ok <;> simp [success_count, List.filter_append]

theorem flatten_length_eq (ups : List (List String × Bool)) :
    (ups.map Prod.fst).flatten.length = success_count ups + failed_count ups := by
  induction ups with
  | nil => simp [success_count, failed_count]
  | cons u l ih =>
    obtain ⟨b, ok⟩ := u
    cases ok <;>
      simp [success_count, failed_count, List.filter_cons] at ih ⊢ <;>
      omega

theorem upsert_batch_count (upsertOk : Nat → Bool) (s : EmbedState)
    (hinv : s.successful_uploads
      = (success_count s.upserts : Int) + s.vectors_batch.length) :
    (upsert_batch upsertOk s).successful_uploads
      = (success_count (upsert_batch upsertOk s).upserts : Int)
        + (upsert_batch upsertOk s).vectors_batch.length := by
  unfold upsert_batch
  cases hok : upsertOk s.upserts.length <;>
    simp [success_count_append, hok, hinv]

theorem upsert_batch_flatten (upsertOk : Nat → Bool) (s : EmbedState) :
    ((upsert_batch upsertOk s).upserts.map Prod.fst).flatten
        ++ (upsert_batch upsertOk s).vectors_batch
      = (s.upserts.map Prod.fst).flatten ++ s.vectors_batch := by
  simp [upsert_batch]

theorem process_step_flatten (embedOk upsertOk : Nat → Bool) (bs : Nat)
    (s0 : EmbedState) (ip : Nat × Profile) (s2 : EmbedState)
    (h : process_step embedOk upsertOk bs s0 ip = some s2) :
    (s2.upserts.map Prod.fst).flatten ++ s2.vectors_batch
      = ((s0.upserts.map Prod.fst).flatten ++ s0.vectors_batch)
        ++ (if embedOk ip.1 then vector_id ip.2.url else none).toList := by
  unfold process_step at h
  by_cases he : embedOk ip.1
  · rw [if_pos he] at h
    cases hid : vector_id ip.2.url with
    | none => rw [hid] at h; exact absurd h (by simp)
    | some v =>
      rw [hid] at h
      simp only [] at h
      split at h <;> rw [← Option.some_inj.mp h] <;>
        simp [upsert_batch, he, hid]
  · rw [if_neg he] at h
    rw [← Option.some_inj.mp h]
    simp [he]

theorem process_step_count (embedOk upsertOk : Nat → Bool) (bs : Nat)
    (s0 : EmbedState) (ip : Nat × Profile) (s2 : EmbedState)
    (h : process_step embedOk upsertOk bs s0 ip = some s2)
    (hinv : s0.successful_uploads
      = (success_count s0.upserts : Int) + s0.vectors_batch.length) :
    s2.successful_uploads
      = (success_count s2.upserts : Int) + s2.vectors_batch.length := by
  unfold process_step at h
  by_cases he : embedOk ip.1
  · rw [if_pos he] at h
    cases hid : vector_id ip.2.url with
    | none => rw [hid] at h; exact absurd h (by simp)
    | some v =>
      rw [hid] at h
      simp only [] at h
      split at h
      · rw [← Option.some_inj.mp h]
        apply upsert_batch_count
        simp [hinv]
        ring
      · rw [← Option.some_inj.mp h]
        simp [hinv]
        ring
  · rw [if_neg he] at h
    rw [← Option.some_inj.mp h]
    exact hinv

theorem process_foldlM_flatten (embedOk upsertOk : Nat → Bool) (bs : Nat) :
    ∀ (l : List (Nat × Profile)) (s0 s1 : EmbedState),
      List.foldlM (process_step embedOk upsertOk bs) s0 l = some s1 →
      (s1.upserts.map Prod.fst).flatten ++ s1.vectors_batch
        = ((s0.upserts.map Prod.fst).flatten ++ s0.vectors_batch)
          ++ l.filterMap (fun ip => if embedOk ip.1 then vector_id ip.2.url else none) := by
  intro l
  induction l with
  | nil => intro s0 s1 h; simp at h; subst h; simp
  | cons ip l ih =>
    intro s0 s1 h
    rw [List.foldlM_cons] at h
    cases hstep : process_step embedOk upsertOk bs s0 ip with
    | none => rw [hstep] at h; simp at h
    | some s2 =>
      rw [hstep] at h
      simp only [Option.bind_eq_bind, Option.some_bind] at h
      have h2 := ih s2 s1 h
      have h1 := process_step_flatten embedOk upsertOk bs s0 ip s2 hstep
      rw [h2, h1, List.filterMap_cons]
      cases hf : (if embedOk ip.1 then vector_id ip.2.url else none) <;> simp [hf]

theorem process_foldlM_count (embedOk upsertOk : Nat → Bool) (bs : Nat) :
    ∀ (l : List (Nat × Profile)) (s0 s1 : EmbedState),
      List.foldlM (process_step embedOk upsertOk bs) s0 l = some s1 →
      s0.successful_uploads
        = (success_count s0.upserts : Int) + s0.vectors_batch.length →
      s1.successful_uploads
        = (success_count s1.upserts : Int) + s1.vectors_batch.length := by
  intro l
  induction l with
  | nil => intro s0 s1 h hinv; simp at h; subst h; exact hinv
  | cons ip l ih =>
    intro s0 s1 h hinv
    rw [List.foldlM_cons] at h
    cases hstep : process_step embedOk upsertOk bs s0 ip with
    | none => rw [hstep] at h; simp at h
    | some s2 =>
      rw [hstep] at h
      simp only [Option.bind_eq_bind, Option.some_bind] at h
      exact ih s2 s1 h (process_step_count embedOk upsertOk bs s0 ip s2 hstep hinv)

theorem process_profiles_spec (profiles : List Profile) (embedOk upsertOk : Nat → Bool)
    (bs : Nat) (s : EmbedState)
    (h : process_profiles_batch profiles embedOk upsertOk bs = some s) :
    s.vectors_batch = [] ∧
    s.successful_uploads = (success_count s.upserts : Int) ∧
    (s.upserts.map Prod.fst).flatten = embedded_ids embedOk profiles := by
  unfold process_profiles_batch at h
  cases hfold : List.foldlM (process_step embedOk upsertOk bs)
      (⟨0, [], []⟩ : EmbedState) profiles.enum with
  | none => rw [hfold] at h; simp at h
  | some s1 =>
    rw [hfold] at h
    simp only [Option.bind_eq_bind, Option.some_bind] at h
    have hfl0 := process_foldlM_flatten embedOk upsertOk bs profiles.enum _ _ hfold
    have hfl : (s1.upserts.map Prod.fst).flatten ++ s1.vectors_batch
        = embedded_ids embedOk profiles := by
      rw [hfl0]; rfl
    have hcnt := process_foldlM_count embedOk upsertOk bs profiles.enum _ _ hfold
      (by simp [success_count])
    by_cases hnil : s1.vectors_batch.isEmpty
    · rw [if_pos hnil] at h
      have hb : s1.vectors_batch = [] := List.isEmpty_iff.mp hnil
      cases h
      refine ⟨hb, ?_, ?_⟩
      · rw [hcnt, hb]; simp
      · rw [← hfl, hb]; simp
    · rw [if_neg hnil] at h
      cases h
      refine ⟨rfl, ?_, ?_⟩
      · have := upsert_batch_count upsertOk s1 hcnt
        simpa using this
      · rw [← hfl]
        simp [upsert_batch]

/-- C7: success-count semantics with partial-failure isolation: whenever the
embedding run returns, the returned count equals the number of records whose
embedding succeeded minus the number of records contained in batches whose
upsert failed; and the concatenation of all upsert calls ever issued is
exactly the list of successfully-embedded records — each appears in exactly
one batch, so a failed batch is never retried or re-queued. -/
theorem success_count_semantics (profiles : List Profile)
    (embedOk upsertOk : Nat → Bool) (bs : Nat) (s : EmbedState)
    (h : process_profiles_batch profiles embedOk upsertOk bs = some s) :
    s.successful_uploads
      = ((embedded_ids embedOk profiles).length : Int)
        - (failed_count s.upserts : Int) ∧
    (s.upserts.map Prod.fst).flatten = embedded_ids embedOk profiles := by
  obtain ⟨hb, hcnt, hfl⟩ := process_profiles_spec profiles embedOk upsertOk bs s h
  refine ⟨?_, hfl⟩
  have hlen : (embedded_ids embedOk profiles).length
      = success_count s.upserts + failed_count s.upserts := by
    rw [← hfl]; exact flatten_length_eq s.upserts
  rw [hcnt, hlen]
  push_cast
  ring

/-- C7 (witness): the semantics at a concrete run in which the first batch
fails its upsert and the final partial batch succeeds. -/
theorem success_count_semantics_witness :
    (process_profiles_batch (List.replicate 3 profileA) (fun _ => true)
        (fun k => k == 1) 2
      = some ⟨1, [], [(["alice", "alice"], false), (["alice"], true)]⟩) ∧
    ((⟨1, [], [(["alice", "alice"], false), (["alice"], true)]⟩ : EmbedState).successful_uploads
      = ((embedded_ids (fun _ => true) (List.replicate 3 profileA)).length : Int)
        - (failed_count (⟨1, [], [(["alice", "alice"], false),
            (["alice"], true)]⟩ : EmbedState).upserts : Int)) ∧
    (((⟨1, [], [(["alice", "alice"], false), (["alice"], true)]⟩ : EmbedState).upserts.map
        Prod.fst).flatten
      = embedded_ids (fun _ => true) (List.replicate 3 profileA)) :=
  ⟨by decide,
   (success_count_semantics (List.replicate 3 profileA) (fun _ => true)
      (fun k => k == 1) 2 _ (by decide)).1,
   (success_count_semantics (List.replicate 3 profileA) (fun _ => true)
      (fun k => k == 1) 2 _ (by decide)).2⟩

/-- C10: the returned upload count is bounded: it is never negative and
never exceeds the number of input records — every record contributes at most
one, and the subtraction on a failed upsert removes only contributions
previously added. -/
theorem uploads_count_bounds (profiles : List Profile)
    (embedOk upsertOk : Nat → Bool) (bs : Nat) (s : EmbedState)
    (h : process_profiles_batch profiles embedOk upsertOk bs = some s) :
    0 ≤ s.successful_uploads ∧ s.successful_uploads ≤ profiles.length := by
  obtain ⟨hb, hcnt, hfl⟩ := process_profiles_spec profiles embedOk upsertOk bs s h
  have h1 : success_count s.upserts ≤ (embedded_ids embedOk profiles).length := by
    rw [← hfl, flatten_length_eq]
    omega
  have h2 : (embedded_ids embedOk profiles).length ≤ profiles.length := by
    calc (embedded_ids embedOk profiles).length
        ≤ profiles.enum.length := List.length_filterMap_le _ _
      _ = profiles.length := List.enum_length
  constructor
  · rw [hcnt]; positivity
  · rw [hcnt]; exact_mod_cast le_trans h1 h2

/-- C10 (witness): the bounds at a concrete run with one embedding
failure. -/
theorem uploads_count_bounds_witness :
    (process_profiles_batch (List.replicate 4 profileA) (fun i => i != 0)
        (fun _ => true) 3
      = some ⟨3, [], [(["alice", "alice", "alice"], true)]⟩) ∧
    (0 ≤ (⟨3, [], [(["alice", "alice", "alice"], true)]⟩ : EmbedState).successful_uploads ∧
     (⟨3, [], [(["alice", "alice", "alice"], true)]⟩ : EmbedState).successful_uploads
        ≤ (List.replicate 4 profileA).length) :=
  ⟨by decide,
   uploads_count_bounds (List.replicate 4 profileA) (fun i => i != 0)
     (fun _ => true) 3 _ (by decide)⟩

theorem process_all_success_sizes (embedOk upsertOk : Nat → Bool) (bs : Nat)
    (hbs : 0 < bs) (hup : ∀ k, upsertOk k = true) :
    ∀ (l : List (Nat × Profile)) (s0 : EmbedState),
      (∀ ip ∈ l, embedOk ip.1 = true ∧ (vector_id ip.2.url).isSome = true) →
      s0.vectors_batch.length < bs →
      (∀ u ∈ s0.upserts, u.2 = true) →
      ∃ s1, List.foldlM (process_step embedOk upsertOk bs) s0 l = some s1 ∧
        s1.upserts.map (fun u => u.1.length)
          = s0.upserts.map (fun u => u.1.length)
            ++ List.replicate ((s0.vectors_batch.length + l.length) / bs) bs ∧
        s1.vectors_batch.length = (s0.vectors_batch.length + l.length) % bs ∧
        ∀ u ∈ s1.upserts, u.2 = true := by
  intro l
  induction l with
  | nil =>
    intro s0 hall hlt hok
    refine ⟨s0, by simp, ?_, ?_, hok⟩
    · simp [Nat.div_eq_of_lt hlt]
    · simp [Nat.mod_eq_of_lt hlt]
  | cons ip l ih =>
    intro s0 hall hlt hok
    obtain ⟨he, hid⟩ := hall ip (List.mem_cons_self ip l)
    obtain ⟨v, hv⟩ := Option.isSome_iff_exists.mp hid
    have hall' : ∀ ip' ∈ l, embedOk ip'.1 = true ∧ (vector_id ip'.2.url).isSome = true :=
      fun ip' h' => hall ip' (List.mem_cons_of_mem _ h')
    rw [List.foldlM_cons]
    by_cases hfl : bs ≤ s0.vectors_batch.length + 1
    · have hbseq : bs = s0.vectors_batch.length + 1 := by omega
      have hstep : process_step embedOk upsertOk bs s0 ip
          = some (upsert_batch upsertOk
              { s0 with vectors_batch := s0.vectors_batch ++ [v]
                        successful_uploads := s0.successful_uploads + 1 }) := by
        unfold process_step
        rw [hv]
        simp [he, hfl]
      rw [hstep]
      simp only [Option.bind_eq_bind, Option.some_bind]
      have hok2 : ∀ u ∈ (upsert_batch upsertOk
          { s0 with vectors_batch := s0.vectors_batch ++ [v]
                    successful_uploads := s0.successful_uploads + 1 }).upserts,
          u.2 = true := by
        intro u hu
        simp only [upsert_batch, List.mem_append, List.mem_singleton] at hu
        rcases hu with hu | hu
        · exact hok u hu
        · rw [hu]
          exact hup _
      have hlt2 : (upsert_batch upsertOk
          { s0 with vectors_batch := s0.vectors_batch ++ [v]
                    successful_uploads := s0.successful_uploads + 1 }).vectors_batch.length
            < bs := by
        simp [upsert_batch]
        exact hbs
      obtain ⟨sf, hfold, hsizes, hbatch, hflags⟩ := ih _ hall' hlt2 hok2
      refine ⟨sf, hfold, ?_, ?_, hflags⟩
      · rw [hsizes]
        have h1 : s0.vectors_batch.length + (l.length + 1) = l.length + bs := by omega
        have h2 : (l.length + bs) / bs = l.length / bs + 1 := Nat.add_div_right _ hbs
        simp only [upsert_batch, List.map_append, List.map_cons, List.map_nil,
          List.length_append, List.length_cons, List.length_nil, h1, h2,
          List.replicate_succ, List.length_replicate]
        simp [List.append_assoc]
        omega
      · rw [hbatch]
        have h1 : s0.vectors_batch.length + (l.length + 1) = l.length + bs := by omega
        have h3 : (l.length + bs) % bs = l.length % bs := Nat.add_mod_right _ _
        simp only [upsert_batch, List.length_nil, Nat.zero_add, List.length_cons]
        rw [h1, h3]
    · have hstep : process_step embedOk upsertOk bs s0 ip
          = some { s0 with vectors_batch := s0.vectors_batch ++ [v]
                           successful_uploads := s0.successful_uploads + 1 } := by
        unfold process_step
        rw [hv]
        simp [he, hfl]
      rw [hstep]
      simp only [Option.bind_eq_bind, Option.some_bind]
      have hlt2 : ({ s0 with vectors_batch := s0.vectors_batch ++ [v]
                             successful_uploads := s0.successful_uploads + 1 }
          : EmbedState).vectors_batch.length < bs := by
        simp
        omega
      obtain ⟨sf, hfold, hsizes, hbatch, hflags⟩ := ih _ hall' hlt2 hok
      refine ⟨sf, hfold, ?_, ?_, hflags⟩
      · rw [hsizes]
        have h1 : s0.vectors_batch.length + 1 + l.length
            = s0.vectors_batch.length + (l.length + 1) := by omega
        simp [h1]
      · rw [hbatch]
        have h1 : s0.vectors_batch.length + 1 + l.length
            = s0.vectors_batch.length + (l.length + 1) := by omega
        simp [h1]

/-- C6: batch arithmetic: in a run where every record embeds successfully
and every upsert succeeds, with a positive batch size `bs`, the pipeline
issues `⌊n / bs⌋` full upserts of exactly `bs` vectors — each fired exactly
when the batch reaches `bs` — plus one final partial upsert of `n % bs`
vectors when `n` is not a multiple of `bs`. -/
theorem batch_flush_sizes (profiles : List Profile)
    (embedOk upsertOk : Nat → Bool) (bs : Nat) (hbs : 0 < bs)
    (hall : ∀ ip ∈ profiles.enum,
      embedOk ip.1 = true ∧ (vector_id ip.2.url).isSome = true)
    (hup : ∀ k, upsertOk k = true) :
    ∃ s, process_profiles_batch profiles embedOk upsertOk bs = some s ∧
      s.upserts.map (fun u => u.1.length)
        = List.replicate (profiles.length / bs) bs
          ++ (if profiles.length % bs = 0 then []
              else [profiles.length % bs]) ∧
      ∀ u ∈ s.upserts, u.2 = true := by
  obtain ⟨s1, hfold, hsizes, hbatch, hflags⟩ :=
    process_all_success_sizes embedOk upsertOk bs hbs hup profiles.enum
      ⟨0, [], []⟩ hall (by simpa using hbs) (by simp)
  simp only [List.length_nil, Nat.zero_add, List.enum_length, List.map_nil,
    List.nil_append] at hsizes hbatch
  unfold process_profiles_batch
  rw [hfold]
  simp only [Option.bind_eq_bind, Option.some_bind]
  by_cases hnil : s1.vectors_batch.isEmpty
  · have hz : profiles.length % bs = 0 := by
      rw [← hbatch, List.isEmpty_iff.mp hnil]
      rfl
    refine ⟨s1, by rw [if_pos hnil]; rfl, ?_, hflags⟩
    rw [hsizes, hz]
    simp
  · have hnz : profiles.length % bs ≠ 0 := by
      intro hz
      rw [hz] at hbatch
      exact hnil (by simpa [List.isEmpty_iff, List.length_eq_zero] using hbatch)
    refine ⟨upsert_batch upsertOk s1, by rw [if_neg hnil]; rfl, ?_, ?_⟩
    · simp only [upsert_batch, List.map_append, List.map_cons, List.map_nil]
      rw [hsizes, hbatch]
      simp [hnz]
    · intro u hu
      simp only [upsert_batch, List.mem_append, List.mem_singleton] at hu
      rcases hu with hu | hu
      · exact hflags u hu
      · rw [hu]
        exact hup _

set_option maxRecDepth 4000 in
/-- C6 (witness): 250 records with batch size 100 issue exactly three
upserts of sizes 100, 100 and 50, all successful. -/
theorem batch_flush_sizes_witness :
    (0 < 100 ∧ (∀ ip ∈ (List.replicate 250 profileB).enum,
        (fun _ => true : Nat → Bool) ip.1 = true ∧
        (vector_id ip.2.url).isSome = true)) ∧
    ∃ s, process_profiles_batch (List.replicate 250 profileB)
        (fun _ => true) (fun _ => true) 100 = some s ∧
      s.upserts.map (fun u => u.1.length) = [100, 100, 50] ∧
      ∀ u ∈ s.upserts, u.2 = true := by
  refine ⟨⟨by decide, by decide⟩, ?_⟩
  obtain ⟨s, h1, h2, h3⟩ := batch_flush_sizes (List.replicate 250 profileB)
    (fun _ => true) (fun _ => true) 100 (by decide) (by decide) (fun k => rfl)
  refine ⟨s, h1, ?_, h3⟩
  rw [h2]
  decide

theorem crawl_go_save_before_advance (saveOk : Nat → Bool) :
    ∀ (pages : List (List (Option String))) (k sIdx : Nat)
      (st : List (Nat × List String)),
      st.map Prod.fst = List.range' 1 k →
      ∀ j m, (crawl_go saveOk pages (k + 1) st sIdx).1.get? j
          = some (CrawlEvent.advance m) →
        ∃ i snap, j = i + 1 ∧
          (crawl_go saveOk pages (k + 1) st sIdx).1.get? i
            = some (CrawlEvent.save snap true) ∧
          snap.map Prod.fst = List.range' 1 m ∧
          (∀ e ∈ st, e ∈ snap) ∧
          (∀ p u, CrawlEvent.extract p u
              ∈ ((crawl_go saveOk pages (k + 1) st sIdx).1.take j) →
            (p, u) ∈ snap) := by
  intro pages
  induction pages with
  | nil =>
    intro k sIdx st hst j m hadv
    simp [crawl_go] at hadv
  | cons cont rest ih =>
    intro k sIdx st hst j m hadv
    by_cases hemp : (extract_profile_urls cont).isEmpty
    · rw [crawl_go] at hadv
      simp only [hemp, if_true] at hadv
      rcases j with _ | j <;> simp at hadv
    · by_cases hs : saveOk sIdx
      · have hgo : (crawl_go saveOk (cont :: rest) (k + 1) st sIdx).1
            = CrawlEvent.extract (k + 1) (extract_profile_urls cont)
              :: CrawlEvent.save (st ++ [(k + 1, extract_profile_urls cont)]) true
              :: CrawlEvent.advance (k + 1)
              :: (crawl_go saveOk rest (k + 1 + 1)
                    (st ++ [(k + 1, extract_profile_urls cont)]) (sIdx + 1)).1 := by
          rw [crawl_go]
          simp [hemp, hs]
        have hst' : (st ++ [(k + 1, extract_profile_urls cont)]).map Prod.fst
            = List.range' 1 (k + 1) := by
          rw [List.map_append, hst]
          simp [List.range'_concat, Nat.add_comm]
        rw [hgo] at hadv ⊢
        rcases j with _ | _ | _ | j
        · simp at hadv
        · simp at hadv
        · simp only [List.get?_cons_succ, List.get?_cons_zero,
            Option.some_inj] at hadv
          obtain rfl : k + 1 = m := by
            cases hadv
            rfl
          refine ⟨1, st ++ [(k + 1, extract_profile_urls cont)], rfl, by simp,
            hst', fun e he => List.mem_append_left _ he, ?_⟩
          intro p u hm
          simp only [List.take_succ_cons, List.take_zero, List.mem_cons,
            List.not_mem_nil, or_false, CrawlEvent.extract.injEq,
            reduceCtorEq] at hm
          obtain ⟨rfl, rfl⟩ := hm
          exact List.mem_append_right _ (List.mem_singleton.mpr rfl)
        · simp only [List.get?_cons_succ] at hadv
          obtain ⟨i, snap, rfl, hsave, hrange, hsub, hext⟩ :=
            ih (k + 1) (sIdx + 1) (st ++ [(k + 1, extract_profile_urls cont)])
              hst' j m hadv
          refine ⟨i + 3, snap, rfl, by simpa using hsave, hrange,
            fun e he => hsub _ (List.mem_append_left _ he), ?_⟩
          intro p u hm
          simp only [List.take_succ_cons, List.mem_cons,
            CrawlEvent.extract.injEq, reduceCtorEq, false_or] at hm
          rcases hm with ⟨rfl, rfl⟩ | hm
          · exact hsub _ (List.mem_append_right _ (List.mem_singleton.mpr rfl))
          · exact hext p u hm
      · rw [crawl_go] at hadv
        simp only [hemp, hs, if_false, Bool.false_eq_true] at hadv
        rcases j with _ | _ | j <;> simp at hadv

/-- C9: durability: on every crawl run, whenever the controller advances the
page counter after finishing page `m`, the event immediately before the
advance is a successful `save_urls` of a snapshot whose pages are exactly
`1..m` and which contains every page extracted so far — the full crawl state
is persisted before the next page is attempted, so no record is held only in
memory across a page boundary. -/
theorem save_before_advance (saveOk : Nat → Bool)
    (pages : List (List (Option String))) (j m : Nat)
    (hadv : (linkedin_other_main saveOk pages).events.get? j
      = some (CrawlEvent.advance m)) :
    ∃ i snap, j = i + 1 ∧
      (linkedin_other_main saveOk pages).events.get? i
        = some (CrawlEvent.save snap true) ∧
      snap.map Prod.fst = List.range' 1 m ∧
      ∀ p u, CrawlEvent.extract p u
          ∈ ((linkedin_other_main saveOk pages).events.take j) →
        (p, u) ∈ snap := by
  have hbase : ∀ j' m', (crawl_go saveOk pages 1 [] 0).1.get? j'
      = some (CrawlEvent.advance m') →
      ∃ i snap, j' = i + 1 ∧
        (crawl_go saveOk pages 1 [] 0).1.get? i
          = some (CrawlEvent.save snap true) ∧
        snap.map Prod.fst = List.range' 1 m' ∧
        ∀ p u, CrawlEvent.extract p u ∈ ((crawl_go saveOk pages 1 [] 0).1.take j') →
          (p, u) ∈ snap := by
    intro j' m' h
    obtain ⟨i, snap, hji, hsave, hrange, _, hext⟩ :=
      crawl_go_save_before_advance saveOk pages 0 0 [] (by simp) j' m' h
    exact ⟨i, snap, hji, hsave, hrange, hext⟩
  have hev : (linkedin_other_main saveOk pages).events
        = (crawl_go saveOk pages 1 [] 0).1 ∨
      ∃ snap b, (linkedin_other_main saveOk pages).events
        = (crawl_go saveOk pages 1 [] 0).1 ++ [CrawlEvent.save snap b] := by
    unfold linkedin_other_main
    generalize crawl_go saveOk pages 1 [] 0 = r
    obtain ⟨evs, st, sIdx, ex⟩ := r
    cases ex with
    | outOfInput => exact Or.inl rfl
    | exhausted =>
      by_cases hst : st.isEmpty
      · exact Or.inl (by simp [hst])
      · exact Or.inr ⟨st, saveOk sIdx, by simp [hst]⟩
    | aborted =>
      by_cases hst : st.isEmpty
      · exact Or.inl (by simp [hst])
      · exact Or.inr ⟨st, saveOk sIdx, by simp [hst]⟩
  rcases hev with hev | ⟨snap', b, hev⟩
  · rw [hev] at hadv ⊢
    exact hbase j m hadv
  · rw [hev] at hadv ⊢
    have hjlt : j < (crawl_go saveOk pages 1 [] 0).1.length := by
      rcases Nat.lt_trichotomy j (crawl_go saveOk pages 1 [] 0).1.length with h | h | h
      · exact h
      · rw [List.get?_append_right (le_of_eq h.symm), h] at hadv
        simp at hadv
      · rw [List.get?_append_right (le_of_lt h)] at hadv
        rcases hk : j - (crawl_go saveOk pages 1 [] 0).1.length with _ | k
        · omega
        · rw [hk] at hadv
          simp at hadv
    rw [List.get?_append hjlt] at hadv
    obtain ⟨i, snap, hji, hsave, hrange, hext⟩ := hbase j m hadv
    refine ⟨i, snap, hji, ?_, hrange, ?_⟩
    · rw [List.get?_append (by omega)]
      exact hsave
    · intro p u hm
      rw [List.take_append_of_le_length (by omega)] at hm
      exact hext p u hm

/-- C9 (witness): the durability property at a concrete two-page crawl. -/
theorem save_before_advance_witness :
    ((linkedin_other_main (fun _ => true)
        [[some "a?1"], [some "b"], []]).events.get? 2
      = some (CrawlEvent.advance 1)) ∧
    ∃ i snap, 2 = i + 1 ∧
      (linkedin_other_main (fun _ => true)
          [[some "a?1"], [some "b"], []]).events.get? i
        = some (CrawlEvent.save snap true) ∧
      snap.map Prod.fst = List.range' 1 1 ∧
      ∀ p u, CrawlEvent.extract p u
          ∈ ((linkedin_other_main (fun _ => true)
              [[some "a?1"], [some "b"], []]).events.take 2) →
        (p, u) ∈ snap :=
  ⟨by decide,
   save_before_advance (fun _ => true) [[some "a?1"], [some "b"], []] 2 1 (by decide)⟩

end Hacky
